import Mathlib

/-!
Shallow embedding of the Starlink_G4-26 observation-geometry engine
(`rot.py`, `cockpitview.py`, `relative.py`) over the real numbers, together
with theorems settling the specification claims about it.

Python floating-point values are modelled as real numbers; `x ** 0.5` on a
non-negative argument is `Real.sqrt`; `numpy.arctan2` is the `atan2`
function defined below (same branch structure as the IEEE definition on
non-zero inputs and `atan2 0 0 = 0`); the float modulo `%` with a positive
divisor is `pymod` below.  Python code that raises an exception is modelled
with `Except Unit`.
-/

noncomputable section

namespace Starlink

open Real

/-- An ordered triple of real numbers (position in km, velocity in km/s, or a
direction).  Fields `x`, `y`, `z` are the Python indices `[0]`, `[1]`, `[2]`. -/
@[ext]
structure Vec3 where
  x : ℝ
  y : ℝ
  z : ℝ

/-- Componentwise difference, as in `r2ecef - r1ecef` on numpy arrays. -/
def Vec3.sub (a b : Vec3) : Vec3 :=
  ⟨a.x - b.x, a.y - b.y, a.z - b.z⟩

/-- From `rot.py`, `rot1`: rotation about the first axis.
`outvec[2] = c*vec[2] - s*vec[1]`, `outvec[1] = c*vec[1] + s*vec[2]`,
`outvec[0] = vec[0]`. -/
def rot1 (vec : Vec3) (xval : ℝ) : Vec3 :=
  ⟨vec.x,
   Real.cos xval * vec.y + Real.sin xval * vec.z,
   Real.cos xval * vec.z - Real.sin xval * vec.y⟩

/-- From `rot.py`, `rot2`: rotation about the second axis.
`outvec[2] = c*vec[2] + s*vec[0]`, `outvec[0] = c*vec[0] - s*vec[2]`,
`outvec[1] = vec[1]`. -/
def rot2 (vec : Vec3) (xval : ℝ) : Vec3 :=
  ⟨Real.cos xval * vec.x - Real.sin xval * vec.z,
   vec.y,
   Real.cos xval * vec.z + Real.sin xval * vec.x⟩

/-- From `rot.py`, `rot3`: rotation about the third axis.
`outvec[1] = c*vec[1] - s*vec[0]`, `outvec[0] = c*vec[0] + s*vec[1]`,
`outvec[2] = vec[2]`. -/
def rot3 (vec : Vec3) (xval : ℝ) : Vec3 :=
  ⟨Real.cos xval * vec.x + Real.sin xval * vec.y,
   Real.cos xval * vec.y - Real.sin xval * vec.x,
   vec.z⟩

/-- From `cockpitview.py` / `relative.py`, `magnitude`: Euclidean norm of a 3-vector,
`(v[0]**2 + v[1]**2 + v[2]**2)**0.5`. -/
def magnitude (v : Vec3) : ℝ :=
  Real.sqrt (v.x ^ 2 + v.y ^ 2 + v.z ^ 2)

/-- Claim C2: for every 3-vector `v` and angle `θ`, rotating by `θ` and then by
`-θ` about the same axis reproduces `v` exactly, for each of `rot1`, `rot2`,
`rot3`. -/
theorem rot_roundtrip_identity (v : Vec3) (θ : ℝ) :
    rot1 (rot1 v θ) (-θ) = v ∧ rot2 (rot2 v θ) (-θ) = v ∧
      rot3 (rot3 v θ) (-θ) = v := by
  have h := Real.sin_sq_add_cos_sq θ
  obtain ⟨a, b, c⟩ := v
  refine ⟨?_, ?_, ?_⟩ <;>
      simp only [rot1, rot2, rot3, Real.cos_neg, Real.sin_neg, Vec3.mk.injEq]
  · exact ⟨trivial, by linear_combination b * h, by linear_combination c * h⟩
  · exact ⟨by linear_combination a * h, trivial, by linear_combination c * h⟩
  · exact ⟨by linear_combination a * h, by linear_combination b * h, trivial⟩

/-- The function `numpy.arctan2 y x` over the reals: the angle in `(-π, π]` of the point
`(x, y)`, with `atan2 0 0 = 0`. -/
def atan2 (y x : ℝ) : ℝ :=
  if 0 < x then Real.arctan (y / x)
  else if x < 0 then
    if 0 ≤ y then Real.arctan (y / x) + Real.pi
    else Real.arctan (y / x) - Real.pi
  else if 0 < y then Real.pi / 2
  else if y < 0 then -(Real.pi / 2)
  else 0

/-- The conversion `numpy.degrees` / the explicit `* (180/pi)` conversions in the source. -/
def degrees (x : ℝ) : ℝ :=
  x * (180 / Real.pi)

/-- East-North-Up components of a vector in the observer's topocentric frame. -/
structure ENU where
  east : ℝ
  north : ℝ
  up : ℝ

/-- From `cockpitview.py`, `ecef2enu`: rotate a single ECEF vector into the local
ENU frame at geodetic latitude `lat`, longitude `lon`. -/
def ecef2enu (ecef : Vec3) (lat lon : ℝ) : ENU :=
  let u := ecef.x
  let v := ecef.y
  let w := ecef.z
  let temp := Real.cos lon * u + Real.sin lon * v
  { east := -Real.sin lon * u + Real.cos lon * v
    north := -Real.sin lat * temp + Real.cos lat * w
    up := Real.cos lat * temp + Real.sin lat * w }

/-- From `cockpitview.py`, `twoecef2enu`: ENU components of the relative vector from
`acecef` to `satecef`. -/
def twoecef2enu (acecef satecef : Vec3) (lat lon : ℝ) : ENU :=
  let u := satecef.x - acecef.x
  let v := satecef.y - acecef.y
  let w := satecef.z - acecef.z
  let temp := Real.cos lon * u + Real.sin lon * v
  { east := -Real.sin lon * u + Real.cos lon * v
    north := -Real.sin lat * temp + Real.cos lat * w
    up := Real.cos lat * temp + Real.sin lat * w }

/-- From `cockpitview.py`, `calculate_heading_from_velocity`: heading in radians,
clockwise from local north, as `arctan2(v_east, v_north)`. -/
def calculate_heading_from_velocity (vecef : Vec3) (lat lon : ℝ) : ℝ :=
  let u := vecef.x
  let v := vecef.y
  let w := vecef.z
  let temp := Real.cos lon * u + Real.sin lon * v
  let v_east := -Real.sin lon * u + Real.cos lon * v
  let v_north := -Real.sin lat * temp + Real.cos lat * w
  atan2 v_east v_north

/-- From `cockpitview.py`, `cockpitview`: returns
`(range, look angle in degrees, elevation in degrees)`. -/
def cockpitview (r1ecef v1ecef r2ecef : Vec3) (lat lon : ℝ) : ℝ × ℝ × ℝ :=
  let pos_enu := twoecef2enu r1ecef r2ecef lat lon
  let e := pos_enu.east
  let n := pos_enu.north
  let u := pos_enu.up
  let heading_radians := calculate_heading_from_velocity v1ecef lat lon
  let e_p := e * Real.cos (-heading_radians) + n * Real.sin (-heading_radians)
  let n_p := -e * Real.sin (-heading_radians) + n * Real.cos (-heading_radians)
  let u_p := u
  let range := magnitude ⟨e_p, n_p, u_p⟩
  let horiz_range := magnitude ⟨e_p, n_p, 0⟩
  let lookdeg := degrees (atan2 e_p n_p)
  let eldeg := degrees (atan2 u_p horiz_range)
  (range, lookdeg, eldeg)

/-- The two ENU conversion routines duplicate the same formulas; `twoecef2enu`
is `ecef2enu` of the difference vector. -/
theorem twoecef2enu_eq_ecef2enu (a b : Vec3) (lat lon : ℝ) :
    twoecef2enu a b lat lon = ecef2enu (b.sub a) lat lon := rfl

/-- The ECEF-to-ENU rotation preserves the squared norm. -/
theorem enu_norm_sq (ecef : Vec3) (lat lon : ℝ) :
    (ecef2enu ecef lat lon).east ^ 2 + (ecef2enu ecef lat lon).north ^ 2 +
      (ecef2enu ecef lat lon).up ^ 2 = ecef.x ^ 2 + ecef.y ^ 2 + ecef.z ^ 2 := by
  obtain ⟨u, v, w⟩ := ecef
  simp only [ecef2enu]
  linear_combination ((Real.cos lon * u + Real.sin lon * v) ^ 2 + w ^ 2) *
      Real.sin_sq_add_cos_sq lat +
    (u ^ 2 + v ^ 2) * Real.sin_sq_add_cos_sq lon

/-- Rotating the east/north pair by any angle preserves its squared norm. -/
theorem heading_rot_norm_sq (e n h : ℝ) :
    (e * Real.cos h + n * Real.sin h) ^ 2 +
      (-e * Real.sin h + n * Real.cos h) ^ 2 = e ^ 2 + n ^ 2 := by
  linear_combination (e ^ 2 + n ^ 2) * Real.sin_sq_add_cos_sq h

/-- Claim C10: the range returned by `cockpitview` is exactly the Euclidean norm
of `r2ecef - r1ecef`: both the ECEF-to-ENU transform and the heading rotation
of the east/north components preserve the norm. -/
theorem cockpitview_range_eq_norm (r1ecef v1ecef r2ecef : Vec3) (lat lon : ℝ) :
    (cockpitview r1ecef v1ecef r2ecef lat lon).1 =
      magnitude (r2ecef.sub r1ecef) := by
  simp only [cockpitview, magnitude, twoecef2enu_eq_ecef2enu]
  congr 1
  rw [heading_rot_norm_sq]
  have h := enu_norm_sq (r2ecef.sub r1ecef) lat lon
  obtain ⟨x1, y1, z1⟩ := r1ecef
  obtain ⟨x2, y2, z2⟩ := r2ecef
  simp only [Vec3.sub] at h ⊢
  linear_combination h

theorem atan2_zero_pos {x : ℝ} (hx : 0 < x) : atan2 0 x = 0 := by
  simp [atan2, hx]

theorem atan2_pos_zero {y : ℝ} (hy : 0 < y) : atan2 y 0 = Real.pi / 2 := by
  simp [atan2, hy, lt_irrefl]

theorem atan2_zero_neg {x : ℝ} (hx : x < 0) : atan2 0 x = Real.pi := by
  rw [atan2, if_neg (by linarith), if_pos hx, if_pos le_rfl]
  simp

theorem atan2_neg_zero {y : ℝ} (hy : y < 0) : atan2 y 0 = -(Real.pi / 2) := by
  rw [atan2, if_neg (lt_irrefl 0), if_neg (lt_irrefl 0), if_neg (by linarith),
    if_pos hy]

/-- Claim C7: `calculate_heading_from_velocity` returns the two-argument
arctangent of the velocity's ENU east and north components; a due-north
velocity gives heading 0°, due east 90°, due south 180°, due west −90°
(the convention produced by `arctan2`). -/
theorem calculate_heading_spec (vecef : Vec3) (lat lon : ℝ) :
    calculate_heading_from_velocity vecef lat lon =
      atan2 (ecef2enu vecef lat lon).east (ecef2enu vecef lat lon).north ∧
    ((ecef2enu vecef lat lon).east = 0 → 0 < (ecef2enu vecef lat lon).north →
      degrees (calculate_heading_from_velocity vecef lat lon) = 0) ∧
    (0 < (ecef2enu vecef lat lon).east → (ecef2enu vecef lat lon).north = 0 →
      degrees (calculate_heading_from_velocity vecef lat lon) = 90) ∧
    ((ecef2enu vecef lat lon).east = 0 → (ecef2enu vecef lat lon).north < 0 →
      degrees (calculate_heading_from_velocity vecef lat lon) = 180) ∧
    ((ecef2enu vecef lat lon).east < 0 → (ecef2enu vecef lat lon).north = 0 →
      degrees (calculate_heading_from_velocity vecef lat lon) = -90) := by
  have hmain : calculate_heading_from_velocity vecef lat lon =
      atan2 (ecef2enu vecef lat lon).east (ecef2enu vecef lat lon).north := rfl
  have hpi := Real.pi_ne_zero
  refine ⟨hmain, ?_, ?_, ?_, ?_⟩
  · intro h1 h2
    rw [hmain, h1, atan2_zero_pos h2, degrees, zero_mul]
  · intro h1 h2
    rw [hmain, h2, atan2_pos_zero h1, degrees]
    field_simp
    ring
  · intro h1 h2
    rw [hmain, h1, atan2_zero_neg h2, degrees]
    field_simp
  · intro h1 h2
    rw [hmain, h2, atan2_neg_zero h1, degrees]
    field_simp
    ring

/-- Witness for C7 at concrete inputs: at latitude 0, longitude 0 the four
cardinal ECEF velocities give headings 0°, 90°, 180°, −90°. -/
theorem calculate_heading_spec_witness :
    degrees (calculate_heading_from_velocity ⟨0, 0, 1⟩ 0 0) = 0 ∧
    degrees (calculate_heading_from_velocity ⟨0, 1, 0⟩ 0 0) = 90 ∧
    degrees (calculate_heading_from_velocity ⟨0, 0, -1⟩ 0 0) = 180 ∧
    degrees (calculate_heading_from_velocity ⟨0, -1, 0⟩ 0 0) = -90 :=
  ⟨(calculate_heading_spec ⟨0, 0, 1⟩ 0 0).2.1 (by simp [ecef2enu])
      (by simp [ecef2enu]),
   (calculate_heading_spec ⟨0, 1, 0⟩ 0 0).2.2.1 (by simp [ecef2enu])
      (by simp [ecef2enu]),
   (calculate_heading_spec ⟨0, 0, -1⟩ 0 0).2.2.2.1 (by simp [ecef2enu])
      (by simp [ecef2enu]),
   (calculate_heading_spec ⟨0, -1, 0⟩ 0 0).2.2.2.2 (by simp [ecef2enu])
      (by simp [ecef2enu])⟩

/-- The function `numpy.sign`: 1 for positive, -1 for negative, 0 at zero. -/
def npSign (x : ℝ) : ℝ :=
  if 0 < x then 1 else if x < 0 then -1 else 0

/-- The longitude wrap at the top of `twoecef2razel`:
`if lon < -pi: lon += twopi elif lon > pi: lon -= twopi`. -/
def wrapLon (lon : ℝ) : ℝ :=
  if lon < -Real.pi then lon + 2 * Real.pi
  else if Real.pi < lon then lon - 2 * Real.pi
  else lon

/-- The SEZ conversion used in `twoecef2razel`:
`tempvec = rot3(vec, lon); rot2(tempvec, halfpi - lat)` with the wrapped
longitude and `halfpi = pi * 0.5`. -/
def sezOf (vec : Vec3) (lat lon : ℝ) : Vec3 :=
  rot2 (rot3 vec (wrapLon lon)) (Real.pi / 2 - lat)

/-- From `cockpitview.py`, `twoecef2razel`: returns
`(range, azimuth in degrees, elevation in degrees)`. -/
def twoecef2razel (r1ecef v1ecef r2ecef v2ecef : Vec3) (lat lon : ℝ) :
    ℝ × ℝ × ℝ :=
  let small : ℝ := 0.00000001
  let rhoecef := r2ecef.sub r1ecef
  let drhoecef := v2ecef.sub v1ecef
  let rho := magnitude rhoecef
  let rhosez := sezOf rhoecef lat lon
  let drhosez := sezOf drhoecef lat lon
  let temp := Real.sqrt (rhosez.x * rhosez.x + rhosez.y * rhosez.y)
  let el := if temp < small then npSign rhosez.z * (Real.pi / 2)
            else Real.arcsin (rhosez.z / magnitude rhosez)
  let eldeg := el * (180 / Real.pi)
  let az := if temp < small then atan2 drhosez.y (-drhosez.x) * (180 / Real.pi)
            else atan2 rhosez.y (-rhosez.x) * (180 / Real.pi)
  (rho, az, eldeg)

/-- Claim C1: below the fixed horizontal-SEZ threshold `1e-8` the elevation
returned by `twoecef2razel` is `sign(rhosez.z) * 90` degrees and the azimuth
is the two-argument arctangent of the relative velocity's horizontal SEZ
components; otherwise the elevation is `arcsin(rhosez.z / |rhosez|)` and the
azimuth is the two-argument arctangent of the relative position's horizontal
SEZ components, both in degrees. -/
theorem twoecef2razel_singularity_rule (r1ecef v1ecef r2ecef v2ecef : Vec3)
    (lat lon : ℝ) :
    ((twoecef2razel r1ecef v1ecef r2ecef v2ecef lat lon).2.2 =
      if Real.sqrt ((sezOf (r2ecef.sub r1ecef) lat lon).x ^ 2 +
          (sezOf (r2ecef.sub r1ecef) lat lon).y ^ 2) < 1e-8
      then npSign (sezOf (r2ecef.sub r1ecef) lat lon).z * 90
      else degrees (Real.arcsin ((sezOf (r2ecef.sub r1ecef) lat lon).z /
        magnitude (sezOf (r2ecef.sub r1ecef) lat lon)))) ∧
    ((twoecef2razel r1ecef v1ecef r2ecef v2ecef lat lon).2.1 =
      if Real.sqrt ((sezOf (r2ecef.sub r1ecef) lat lon).x ^ 2 +
          (sezOf (r2ecef.sub r1ecef) lat lon).y ^ 2) < 1e-8
      then degrees (atan2 (sezOf (v2ecef.sub v1ecef) lat lon).y
        (-(sezOf (v2ecef.sub v1ecef) lat lon).x))
      else degrees (atan2 (sezOf (r2ecef.sub r1ecef) lat lon).y
        (-(sezOf (r2ecef.sub r1ecef) lat lon).x))) := by
  set s := sezOf (r2ecef.sub r1ecef) lat lon with hs
  set d := sezOf (v2ecef.sub v1ecef) lat lon with hd
  have hsq : s.x * s.x + s.y * s.y = s.x ^ 2 + s.y ^ 2 := by ring
  have hlit : (0.00000001 : ℝ) = 1e-8 := by norm_num
  constructor
  · show (if Real.sqrt (s.x * s.x + s.y * s.y) < 0.00000001
          then npSign s.z * (Real.pi / 2)
          else Real.arcsin (s.z / magnitude s)) * (180 / Real.pi) = _
    rw [hsq, hlit]
    split_ifs with h
    · have hpi := Real.pi_ne_zero
      field_simp
      ring
    · rfl
  · show (if Real.sqrt (s.x * s.x + s.y * s.y) < 0.00000001
          then atan2 d.y (-d.x) * (180 / Real.pi)
          else atan2 s.y (-s.x) * (180 / Real.pi)) = _
    rw [hsq, hlit]
    split_ifs with h <;> rfl

/-- From `relative.py`, `dot_product`. -/
def dot_product (a b : Vec3) : ℝ :=
  a.x * b.x + a.y * b.y + a.z * b.z

/-- From `relative.py`, `cross_product`. -/
def cross_product (a b : Vec3) : Vec3 :=
  ⟨a.y * b.z - a.z * b.y, a.z * b.x - a.x * b.z, a.x * b.y - a.y * b.x⟩

/-- From `relative.py`, `normalize`: divide each component by the magnitude. -/
def normalize (v : Vec3) : Vec3 :=
  ⟨v.x / magnitude v, v.y / magnitude v, v.z / magnitude v⟩

/-- A 3×3 matrix as a list of three row vectors, as used in `relative.py`. -/
structure Mat3 where
  row0 : Vec3
  row1 : Vec3
  row2 : Vec3

/-- From `relative.py`, `transform_vector`: dot each matrix row with the vector. -/
def transform_vector (matrix : Mat3) (vector : Vec3) : Vec3 :=
  ⟨dot_product matrix.row0 vector,
   dot_product matrix.row1 vector,
   dot_product matrix.row2 vector⟩

/-- From `relative.py`, `ecef_to_ntw_matrix`: rows are `n_hat = normalize(r × v)`,
`t_hat = normalize(v)`, `w_hat = t_hat × n_hat`. -/
def ecef_to_ntw_matrix (r v : Vec3) : Mat3 :=
  let n_hat := normalize (cross_product r v)
  let t_hat := normalize v
  let w_hat := cross_product t_hat n_hat
  ⟨n_hat, t_hat, w_hat⟩

/-- From `relative.py`, `angle_between_vectors`: arccosine (in degrees) of the
normalized dot product, clamped to `[-1, 1]` before the `acos` call. -/
def angle_between_vectors (A B : Vec3) : ℝ :=
  let cos_theta := dot_product A B / (magnitude A * magnitude B)
  let clamped := max (-1) (min 1 cos_theta)
  180 * Real.arccos clamped / Real.pi

/-- From `relative.py`, `calculate_sun_grazing_angle`. -/
def calculate_sun_grazing_angle
    (r_ac_ecef v_ac_ecef r_sun_ecef v_sun_ecef r_satellite v_satellite : Vec3) :
    ℝ :=
  let ecef_to_ntw := ecef_to_ntw_matrix r_satellite v_satellite
  let position_sun_NTW := transform_vector ecef_to_ntw r_sun_ecef
  let position_aircraft_NTW := transform_vector ecef_to_ntw r_ac_ecef
  let theta_NTW := angle_between_vectors position_sun_NTW position_aircraft_NTW
  (180 - theta_NTW) / 2

/-- Claim C5: the grazing angle is `(180° - θ)/2` where `θ` is the arccosine (in
degrees, clamped to `[-1,1]` first) of the normalized dot product of the sun
and aircraft positions transformed into the satellite's NTW basis; `θ = 0`
gives 90° and `θ = 180` gives 0°. -/
theorem calculate_sun_grazing_angle_spec
    (r_ac_ecef v_ac_ecef r_sun_ecef v_sun_ecef r_satellite v_satellite : Vec3) :
    (calculate_sun_grazing_angle r_ac_ecef v_ac_ecef r_sun_ecef v_sun_ecef
        r_satellite v_satellite =
      (180 - 180 * Real.arccos (max (-1) (min 1
        (dot_product
            (transform_vector (ecef_to_ntw_matrix r_satellite v_satellite)
              r_sun_ecef)
            (transform_vector (ecef_to_ntw_matrix r_satellite v_satellite)
              r_ac_ecef) /
          (magnitude (transform_vector
              (ecef_to_ntw_matrix r_satellite v_satellite) r_sun_ecef) *
            magnitude (transform_vector
              (ecef_to_ntw_matrix r_satellite v_satellite) r_ac_ecef))))) /
        Real.pi) / 2) ∧
    (angle_between_vectors
        (transform_vector (ecef_to_ntw_matrix r_satellite v_satellite)
          r_sun_ecef)
        (transform_vector (ecef_to_ntw_matrix r_satellite v_satellite)
          r_ac_ecef) = 0 →
      calculate_sun_grazing_angle r_ac_ecef v_ac_ecef r_sun_ecef v_sun_ecef
        r_satellite v_satellite = 90) ∧
    (angle_between_vectors
        (transform_vector (ecef_to_ntw_matrix r_satellite v_satellite)
          r_sun_ecef)
        (transform_vector (ecef_to_ntw_matrix r_satellite v_satellite)
          r_ac_ecef) = 180 →
      calculate_sun_grazing_angle r_ac_ecef v_ac_ecef r_sun_ecef v_sun_ecef
        r_satellite v_satellite = 0) := by
  refine ⟨rfl, ?_, ?_⟩ <;> intro h <;>
    show (180 - angle_between_vectors _ _) / 2 = _ <;> rw [h] <;> norm_num

/-- Witness for C5: a configuration where sun and aircraft project to the
same NTW direction (θ = 0, grazing angle 90°) and one where they project to
antipodal directions (θ = 180, grazing angle 0°). -/
theorem calculate_sun_grazing_angle_spec_witness :
    calculate_sun_grazing_angle ⟨0, 2, 0⟩ ⟨0, 0, 0⟩ ⟨0, 1, 0⟩ ⟨0, 0, 0⟩
        ⟨1, 0, 0⟩ ⟨0, 1, 0⟩ = 90 ∧
    calculate_sun_grazing_angle ⟨0, -2, 0⟩ ⟨0, 0, 0⟩ ⟨0, 1, 0⟩ ⟨0, 0, 0⟩
        ⟨1, 0, 0⟩ ⟨0, 1, 0⟩ = 0 := by
  have h4 : Real.sqrt 4 = 2 := by
    rw [show (4 : ℝ) = 2 ^ 2 by norm_num,
      Real.sqrt_sq (by norm_num : (0 : ℝ) ≤ 2)]
  constructor
  · refine (calculate_sun_grazing_angle_spec ⟨0, 2, 0⟩ ⟨0, 0, 0⟩ ⟨0, 1, 0⟩
      ⟨0, 0, 0⟩ ⟨1, 0, 0⟩ ⟨0, 1, 0⟩).2.1 ?_
    simp only [angle_between_vectors, ecef_to_ntw_matrix, cross_product,
      normalize, transform_vector, dot_product, magnitude]
    norm_num [Real.sqrt_one, h4, Real.arccos_one]
  · refine (calculate_sun_grazing_angle_spec ⟨0, -2, 0⟩ ⟨0, 0, 0⟩ ⟨0, 1, 0⟩
      ⟨0, 0, 0⟩ ⟨1, 0, 0⟩ ⟨0, 1, 0⟩).2.2 ?_
    simp only [angle_between_vectors, ecef_to_ntw_matrix, cross_product,
      normalize, transform_vector, dot_product, magnitude]
    norm_num [Real.sqrt_one, h4, Real.arccos_neg_one]
    rw [mul_div_assoc, div_self Real.pi_ne_zero, mul_one]

/-- The magnitude of a vector vanishes exactly on the zero vector. -/
theorem magnitude_eq_zero {u : Vec3} :
    magnitude u = 0 ↔ u = ⟨0, 0, 0⟩ := by
  obtain ⟨a, b, c⟩ := u
  simp only [magnitude, Real.sqrt_eq_zero', Vec3.mk.injEq]
  constructor
  · intro h
    refine ⟨?_, ?_, ?_⟩ <;> nlinarith [sq_nonneg a, sq_nonneg b, sq_nonneg c]
  · rintro ⟨rfl, rfl, rfl⟩
    norm_num

/-- A normalized non-zero vector has magnitude 1. -/
theorem magnitude_normalize {u : Vec3} (h : magnitude u ≠ 0) :
    magnitude (normalize u) = 1 := by
  have hs : 0 ≤ u.x ^ 2 + u.y ^ 2 + u.z ^ 2 := by positivity
  have hm2 : magnitude u ^ 2 = u.x ^ 2 + u.y ^ 2 + u.z ^ 2 := Real.sq_sqrt hs
  have : (u.x / magnitude u) ^ 2 + (u.y / magnitude u) ^ 2 +
      (u.z / magnitude u) ^ 2 = 1 := by
    field_simp
    linarith [hm2]
  rw [normalize, magnitude, this, Real.sqrt_one]

/-- Dot product of normalized vectors is the normalized dot product. -/
theorem dot_product_normalize (a b : Vec3) :
    dot_product (normalize a) (normalize b) =
      dot_product a b / (magnitude a * magnitude b) := by
  simp only [normalize, dot_product, div_mul_div_comm, div_add_div_same]

theorem dot_product_comm (a b : Vec3) : dot_product a b = dot_product b a := by
  simp only [dot_product]
  ring

/-- The cross product is orthogonal to its first argument. -/
theorem dot_cross_left (a b : Vec3) :
    dot_product (cross_product a b) a = 0 := by
  simp only [dot_product, cross_product]
  ring

/-- The cross product is orthogonal to its second argument. -/
theorem dot_cross_right (a b : Vec3) :
    dot_product (cross_product a b) b = 0 := by
  simp only [dot_product, cross_product]
  ring

/-- Lagrange's identity for the magnitude of a cross product. -/
theorem magnitude_cross (a b : Vec3) :
    magnitude (cross_product a b) =
      Real.sqrt (magnitude a ^ 2 * magnitude b ^ 2 - dot_product a b ^ 2) := by
  rw [magnitude, magnitude, magnitude, Real.sq_sqrt (by positivity),
    Real.sq_sqrt (by positivity)]
  congr 1
  simp only [cross_product, dot_product]
  ring

/-- Claim C6: for `r`, `v` nonzero and not parallel (nonzero cross product), the
three rows of `ecef_to_ntw_matrix r v` form an orthonormal basis, and the
third row is literally the cross product of the first two (no
renormalization). -/
theorem ecef_to_ntw_matrix_orthonormal (r v : Vec3) (hr : r ≠ ⟨0, 0, 0⟩)
    (hv : v ≠ ⟨0, 0, 0⟩) (hnp : cross_product r v ≠ ⟨0, 0, 0⟩) :
    magnitude (ecef_to_ntw_matrix r v).row0 = 1 ∧
    magnitude (ecef_to_ntw_matrix r v).row1 = 1 ∧
    magnitude (ecef_to_ntw_matrix r v).row2 = 1 ∧
    dot_product (ecef_to_ntw_matrix r v).row0 (ecef_to_ntw_matrix r v).row1 = 0 ∧
    dot_product (ecef_to_ntw_matrix r v).row0 (ecef_to_ntw_matrix r v).row2 = 0 ∧
    dot_product (ecef_to_ntw_matrix r v).row1 (ecef_to_ntw_matrix r v).row2 = 0 ∧
    (ecef_to_ntw_matrix r v).row2 =
      cross_product (ecef_to_ntw_matrix r v).row1 (ecef_to_ntw_matrix r v).row0 := by
  have hvm : magnitude v ≠ 0 := fun h => hv (magnitude_eq_zero.mp h)
  have hcm : magnitude (cross_product r v) ≠ 0 :=
    fun h => hnp (magnitude_eq_zero.mp h)
  have hrow0 : magnitude (ecef_to_ntw_matrix r v).row0 = 1 :=
    magnitude_normalize hcm
  have hrow1 : magnitude (ecef_to_ntw_matrix r v).row1 = 1 :=
    magnitude_normalize hvm
  have h01 : dot_product (ecef_to_ntw_matrix r v).row0
      (ecef_to_ntw_matrix r v).row1 = 0 := by
    show dot_product (normalize (cross_product r v)) (normalize v) = 0
    rw [dot_product_normalize, dot_cross_right, zero_div]
  have h10 : dot_product (ecef_to_ntw_matrix r v).row1
      (ecef_to_ntw_matrix r v).row0 = 0 := by
    rw [dot_product_comm]
    exact h01
  have hrow2 : magnitude (ecef_to_ntw_matrix r v).row2 = 1 := by
    show magnitude (cross_product (normalize v)
      (normalize (cross_product r v))) = 1
    rw [magnitude_cross]
    rw [show magnitude (normalize v) = 1 from magnitude_normalize hvm,
      show magnitude (normalize (cross_product r v)) = 1 from
        magnitude_normalize hcm,
      show dot_product (normalize v) (normalize (cross_product r v)) = 0
        from h10]
    norm_num
  refine ⟨hrow0, hrow1, hrow2, h01, ?_, ?_, rfl⟩
  · show dot_product (normalize (cross_product r v))
      (cross_product (normalize v) (normalize (cross_product r v))) = 0
    rw [dot_product_comm]
    exact dot_cross_right _ _
  · show dot_product (normalize v)
      (cross_product (normalize v) (normalize (cross_product r v))) = 0
    rw [dot_product_comm]
    exact dot_cross_left _ _

/-- Witness for C6 at `r = (1,0,0)`, `v = (0,1,0)`. -/
theorem ecef_to_ntw_matrix_orthonormal_witness :
    magnitude (ecef_to_ntw_matrix ⟨1, 0, 0⟩ ⟨0, 1, 0⟩).row0 = 1 ∧
    magnitude (ecef_to_ntw_matrix ⟨1, 0, 0⟩ ⟨0, 1, 0⟩).row1 = 1 ∧
    magnitude (ecef_to_ntw_matrix ⟨1, 0, 0⟩ ⟨0, 1, 0⟩).row2 = 1 ∧
    dot_product (ecef_to_ntw_matrix ⟨1, 0, 0⟩ ⟨0, 1, 0⟩).row0
      (ecef_to_ntw_matrix ⟨1, 0, 0⟩ ⟨0, 1, 0⟩).row1 = 0 ∧
    dot_product (ecef_to_ntw_matrix ⟨1, 0, 0⟩ ⟨0, 1, 0⟩).row0
      (ecef_to_ntw_matrix ⟨1, 0, 0⟩ ⟨0, 1, 0⟩).row2 = 0 ∧
    dot_product (ecef_to_ntw_matrix ⟨1, 0, 0⟩ ⟨0, 1, 0⟩).row1
      (ecef_to_ntw_matrix ⟨1, 0, 0⟩ ⟨0, 1, 0⟩).row2 = 0 ∧
    (ecef_to_ntw_matrix ⟨1, 0, 0⟩ ⟨0, 1, 0⟩).row2 =
      cross_product (ecef_to_ntw_matrix ⟨1, 0, 0⟩ ⟨0, 1, 0⟩).row1
        (ecef_to_ntw_matrix ⟨1, 0, 0⟩ ⟨0, 1, 0⟩).row0 :=
  ecef_to_ntw_matrix_orthonormal ⟨1, 0, 0⟩ ⟨0, 1, 0⟩
    (by norm_num [Vec3.mk.injEq])
    (by norm_num [Vec3.mk.injEq])
    (by norm_num [cross_product, Vec3.mk.injEq])

/-- Cosine of the two-argument arctangent. -/
theorem cos_atan2 (y x : ℝ) (h : ¬(x = 0 ∧ y = 0)) :
    Real.cos (atan2 y x) = x / Real.sqrt (x ^ 2 + y ^ 2) := by
  rcases lt_trichotomy x 0 with hx | hx | hx
  · have hx' : x ≠ 0 := ne_of_lt hx
    have h1 : 1 + (y / x) ^ 2 = (x ^ 2 + y ^ 2) / x ^ 2 := by
      field_simp
    have hss : 0 < Real.sqrt (x ^ 2 + y ^ 2) := Real.sqrt_pos.mpr (by positivity)
    rw [atan2, if_neg (by linarith), if_pos hx]
    split_ifs with hy
    · rw [Real.cos_add, Real.cos_pi, Real.sin_pi, Real.cos_arctan, h1,
        Real.sqrt_div (by positivity), Real.sqrt_sq_eq_abs, abs_of_neg hx]
      field_simp
    · rw [Real.cos_sub, Real.cos_pi, Real.sin_pi, Real.cos_arctan, h1,
        Real.sqrt_div (by positivity), Real.sqrt_sq_eq_abs, abs_of_neg hx]
      field_simp
  · subst hx
    have hy : y ≠ 0 := fun hy => h ⟨rfl, hy⟩
    rcases lt_trichotomy y 0 with hy' | hy' | hy'
    · rw [atan2, if_neg (lt_irrefl 0), if_neg (lt_irrefl 0),
        if_neg (by linarith), if_pos hy', Real.cos_neg, Real.cos_pi_div_two,
        zero_div]
    · exact absurd hy' hy
    · rw [atan2, if_neg (lt_irrefl 0), if_neg (lt_irrefl 0), if_pos hy',
        Real.cos_pi_div_two, zero_div]
  · have hx' : x ≠ 0 := ne_of_gt hx
    have h1 : 1 + (y / x) ^ 2 = (x ^ 2 + y ^ 2) / x ^ 2 := by
      field_simp
    have hss : 0 < Real.sqrt (x ^ 2 + y ^ 2) := Real.sqrt_pos.mpr (by positivity)
    rw [atan2, if_pos hx, Real.cos_arctan, h1, Real.sqrt_div (by positivity),
      Real.sqrt_sq_eq_abs, abs_of_pos hx]
    field_simp

/-- Sine of the two-argument arctangent. -/
theorem sin_atan2 (y x : ℝ) (h : ¬(x = 0 ∧ y = 0)) :
    Real.sin (atan2 y x) = y / Real.sqrt (x ^ 2 + y ^ 2) := by
  rcases lt_trichotomy x 0 with hx | hx | hx
  · have hx' : x ≠ 0 := ne_of_lt hx
    have h1 : 1 + (y / x) ^ 2 = (x ^ 2 + y ^ 2) / x ^ 2 := by
      field_simp
    have hss : 0 < Real.sqrt (x ^ 2 + y ^ 2) := Real.sqrt_pos.mpr (by positivity)
    rw [atan2, if_neg (by linarith), if_pos hx]
    split_ifs with hy
    · rw [Real.sin_add, Real.cos_pi, Real.sin_pi, Real.sin_arctan, h1,
        Real.sqrt_div (by positivity), Real.sqrt_sq_eq_abs, abs_of_neg hx]
      field_simp
      ring
    · rw [Real.sin_sub, Real.cos_pi, Real.sin_pi, Real.sin_arctan, h1,
        Real.sqrt_div (by positivity), Real.sqrt_sq_eq_abs, abs_of_neg hx]
      field_simp
      ring
  · subst hx
    have hy : y ≠ 0 := fun hy => h ⟨rfl, hy⟩
    rcases lt_trichotomy y 0 with hy' | hy' | hy'
    · rw [atan2, if_neg (lt_irrefl 0), if_neg (lt_irrefl 0),
        if_neg (by linarith), if_pos hy', Real.sin_neg, Real.sin_pi_div_two,
        show (0:ℝ) ^ 2 + y ^ 2 = y ^ 2 by ring, Real.sqrt_sq_eq_abs,
        abs_of_neg hy']
      field_simp
    · exact absurd hy' hy
    · rw [atan2, if_neg (lt_irrefl 0), if_neg (lt_irrefl 0), if_pos hy',
        Real.sin_pi_div_two,
        show (0:ℝ) ^ 2 + y ^ 2 = y ^ 2 by ring, Real.sqrt_sq_eq_abs,
        abs_of_pos hy', div_self (ne_of_gt hy')]
  · have hx' : x ≠ 0 := ne_of_gt hx
    have h1 : 1 + (y / x) ^ 2 = (x ^ 2 + y ^ 2) / x ^ 2 := by
      field_simp
    have hss : 0 < Real.sqrt (x ^ 2 + y ^ 2) := Real.sqrt_pos.mpr (by positivity)
    rw [atan2, if_pos hx, Real.sin_arctan, h1, Real.sqrt_div (by positivity),
      Real.sqrt_sq_eq_abs, abs_of_pos hx]
    field_simp

/-- The horizontal magnitude `magnitude([e, n, 0])` used by `cockpitview`. -/
theorem magnitude_xy (a b : ℝ) :
    magnitude ⟨a, b, 0⟩ = Real.sqrt (a ^ 2 + b ^ 2) := by
  rw [magnitude]
  norm_num

/-- If the east/north pair is a positive multiple of the pair defining the
heading, rotating it by minus the heading sends it to the positive north
axis, so the look angle vanishes. -/
theorem look_zero_of_aligned (lam ve vn : ℝ) (hlam : 0 < lam)
    (hnz : ¬(vn = 0 ∧ ve = 0)) :
    atan2 (lam * ve * Real.cos (-atan2 ve vn) +
        lam * vn * Real.sin (-atan2 ve vn))
      (-(lam * ve) * Real.sin (-atan2 ve vn) +
        lam * vn * Real.cos (-atan2 ve vn)) = 0 := by
  have hvv : (0 : ℝ) < vn ^ 2 + ve ^ 2 := by
    rcases not_and_or.mp hnz with h | h <;>
      nlinarith [sq_nonneg vn, sq_nonneg ve, mul_self_pos.mpr h]
  have hρ : 0 < Real.sqrt (vn ^ 2 + ve ^ 2) := Real.sqrt_pos.mpr hvv
  rw [Real.cos_neg, Real.sin_neg, cos_atan2 ve vn hnz, sin_atan2 ve vn hnz]
  rw [show lam * ve * (vn / Real.sqrt (vn ^ 2 + ve ^ 2)) +
        lam * vn * -(ve / Real.sqrt (vn ^ 2 + ve ^ 2)) = 0 from by ring,
      show -(lam * ve) * -(ve / Real.sqrt (vn ^ 2 + ve ^ 2)) +
        lam * vn * (vn / Real.sqrt (vn ^ 2 + ve ^ 2)) =
        lam * ((vn ^ 2 + ve ^ 2) / Real.sqrt (vn ^ 2 + ve ^ 2)) from by ring]
  exact atan2_zero_pos (mul_pos hlam (div_pos hvv hρ))

/-- Claim C8: `cockpitview` rotates the relative ENU east/north components by the
negative heading (up unchanged) and returns the look angle
`atan2(e', n')`, the elevation `atan2(u, hypot(e', n'))` and the range
`|(e', n', u)|`, in degrees/km; and whenever the target's horizontal ENU
components are a positive multiple of the observer's horizontal ENU velocity
components, the look angle is 0. -/
theorem cockpitview_spec (r1ecef v1ecef r2ecef : Vec3) (lat lon : ℝ)
    (e n u H : ℝ)
    (he : e = (twoecef2enu r1ecef r2ecef lat lon).east)
    (hn : n = (twoecef2enu r1ecef r2ecef lat lon).north)
    (hu : u = (twoecef2enu r1ecef r2ecef lat lon).up)
    (hH : H = calculate_heading_from_velocity v1ecef lat lon) :
    ((cockpitview r1ecef v1ecef r2ecef lat lon).1 =
      Real.sqrt ((e * Real.cos (-H) + n * Real.sin (-H)) ^ 2 +
        (-e * Real.sin (-H) + n * Real.cos (-H)) ^ 2 + u ^ 2)) ∧
    ((cockpitview r1ecef v1ecef r2ecef lat lon).2.1 =
      degrees (atan2 (e * Real.cos (-H) + n * Real.sin (-H))
        (-e * Real.sin (-H) + n * Real.cos (-H)))) ∧
    ((cockpitview r1ecef v1ecef r2ecef lat lon).2.2 =
      degrees (atan2 u (Real.sqrt ((e * Real.cos (-H) + n * Real.sin (-H)) ^ 2 +
        (-e * Real.sin (-H) + n * Real.cos (-H)) ^ 2)))) ∧
    (∀ lam ve vn : ℝ, 0 < lam →
      ve = (ecef2enu v1ecef lat lon).east →
      vn = (ecef2enu v1ecef lat lon).north →
      ¬(ve = 0 ∧ vn = 0) → e = lam * ve → n = lam * vn →
      (cockpitview r1ecef v1ecef r2ecef lat lon).2.1 = 0) := by
  refine ⟨?_, ?_, ?_, ?_⟩
  · rw [he, hn, hu, hH]
    rfl
  · rw [he, hn, hH]
    rfl
  · rw [he, hn, hu, hH]
    show degrees (atan2 _ (magnitude ⟨_, _, (0 : ℝ)⟩)) = _
    rw [magnitude_xy]
  · intro lam ve vn hlam hve hvn hnz he2 hn2
    have hH2 : calculate_heading_from_velocity v1ecef lat lon = atan2 ve vn := by
      rw [hve, hvn]
      rfl
    show degrees (atan2
      ((twoecef2enu r1ecef r2ecef lat lon).east *
          Real.cos (-calculate_heading_from_velocity v1ecef lat lon) +
        (twoecef2enu r1ecef r2ecef lat lon).north *
          Real.sin (-calculate_heading_from_velocity v1ecef lat lon))
      (-(twoecef2enu r1ecef r2ecef lat lon).east *
          Real.sin (-calculate_heading_from_velocity v1ecef lat lon) +
        (twoecef2enu r1ecef r2ecef lat lon).north *
          Real.cos (-calculate_heading_from_velocity v1ecef lat lon))) = 0
    rw [← he, ← hn, hH2, he2, hn2,
      look_zero_of_aligned lam ve vn hlam (fun hc => hnz ⟨hc.2, hc.1⟩),
      degrees, zero_mul]

/-- Witness for C8: at latitude 0, longitude 0, an observer at the origin
moving north sees a target due north (at `(0,0,5)` ECEF, a positive multiple
of the velocity's horizontal ENU direction) at look angle 0. -/
theorem cockpitview_spec_witness :
    (cockpitview ⟨0, 0, 0⟩ ⟨0, 0, 1⟩ ⟨0, 0, 5⟩ 0 0).2.1 = 0 :=
  ((cockpitview_spec ⟨0, 0, 0⟩ ⟨0, 0, 1⟩ ⟨0, 0, 5⟩ 0 0
      (twoecef2enu ⟨0, 0, 0⟩ ⟨0, 0, 5⟩ 0 0).east
      (twoecef2enu ⟨0, 0, 0⟩ ⟨0, 0, 5⟩ 0 0).north
      (twoecef2enu ⟨0, 0, 0⟩ ⟨0, 0, 5⟩ 0 0).up
      (calculate_heading_from_velocity ⟨0, 0, 1⟩ 0 0)
      rfl rfl rfl rfl).2.2.2) 5
    (ecef2enu ⟨0, 0, 1⟩ 0 0).east (ecef2enu ⟨0, 0, 1⟩ 0 0).north
    (by norm_num) rfl rfl
    (by simp [ecef2enu])
    (by simp [twoecef2enu, ecef2enu])
    (by simp [twoecef2enu, ecef2enu])

/-- Python float `%` with a (positive) right operand: `x - m * ⌊x / m⌋`. -/
def pymod (x m : ℝ) : ℝ :=
  x - m * (⌊x / m⌋ : ℤ)

/-- From `cockpitview.py`, `twoecef2aer`: ENU components below `1e-3` in magnitude
are snapped to 0, then range/azimuth/elevation are derived; the azimuth is
wrapped by `% tau` into `[0, 2π)` before conversion to degrees.  Returns
`(slant range, azimuth in degrees, elevation in degrees)`. -/
def twoecef2aer (acecef satecef : Vec3) (lat lon : ℝ) : ℝ × ℝ × ℝ :=
  let enu := twoecef2enu acecef satecef lat lon
  let e := if |enu.east| < 1e-3 then 0 else enu.east
  let n := if |enu.north| < 1e-3 then 0 else enu.north
  let u := if |enu.up| < 1e-3 then 0 else enu.up
  let r := Real.sqrt (e ^ 2 + n ^ 2)
  let slantRange := Real.sqrt (r ^ 2 + u ^ 2)
  let elev := atan2 u r
  let az := pymod (atan2 e n) (2 * Real.pi)
  (slantRange, degrees az, degrees elev)

theorem cos_wrapLon (lon : ℝ) : Real.cos (wrapLon lon) = Real.cos lon := by
  rw [wrapLon]
  split_ifs with h1 h2
  · exact Real.cos_add_two_pi lon
  · exact Real.cos_sub_two_pi lon
  · rfl

theorem sin_wrapLon (lon : ℝ) : Real.sin (wrapLon lon) = Real.sin lon := by
  rw [wrapLon]
  split_ifs with h1 h2
  · exact Real.sin_add_two_pi lon
  · exact Real.sin_sub_two_pi lon
  · rfl

/-- The SEZ vector built by `twoecef2razel` is, componentwise,
`(-north, east, up)` of the ENU conversion of the same vector. -/
theorem sez_enu (d : Vec3) (lat lon : ℝ) :
    sezOf d lat lon =
      ⟨-(ecef2enu d lat lon).north, (ecef2enu d lat lon).east,
        (ecef2enu d lat lon).up⟩ := by
  obtain ⟨dx, dy, dz⟩ := d
  simp only [sezOf, rot3, rot2, ecef2enu, cos_wrapLon, sin_wrapLon,
    Real.cos_pi_div_two_sub, Real.sin_pi_div_two_sub, Vec3.mk.injEq]
  refine ⟨by ring, by ring, by ring⟩

/-- The function `atan2` always lands in `(-π, π]`. -/
theorem atan2_mem_Ioc (y x : ℝ) :
    -Real.pi < atan2 y x ∧ atan2 y x ≤ Real.pi := by
  have hpi := Real.pi_pos
  have harct1 := Real.arctan_lt_pi_div_two (y / x)
  have harct2 := Real.neg_pi_div_two_lt_arctan (y / x)
  rw [atan2]
  split_ifs with h1 h2 h3 h4 h5
  · constructor <;> linarith
  · -- x < 0, 0 ≤ y : y / x ≤ 0, so arctan (y/x) ≤ 0
    have hd : y / x ≤ 0 := div_nonpos_iff.mpr (Or.inl ⟨h3, le_of_lt h2⟩)
    have hle := Real.arctan_strictMono.monotone hd
    rw [Real.arctan_zero] at hle
    constructor <;> linarith
  · -- x < 0, y < 0 : 0 < y / x, so 0 < arctan (y/x)
    have hd : 0 < y / x := div_pos_iff.mpr (Or.inr ⟨lt_of_not_le h3, h2⟩)
    have hgt := Real.arctan_strictMono hd
    rw [Real.arctan_zero] at hgt
    constructor <;> linarith
  · constructor <;> linarith
  · constructor <;> linarith
  · constructor <;> linarith

/-- On `(-π, π]`, the float modulo by `2π` either fixes the angle (if it is
nonnegative) or shifts it up by one full turn. -/
theorem pymod_two_pi {a : ℝ} (h1 : -Real.pi < a) (h2 : a ≤ Real.pi) :
    pymod a (2 * Real.pi) = if a < 0 then a + 2 * Real.pi else a := by
  have hpi := Real.pi_pos
  rw [pymod]
  by_cases ha : a < 0
  · rw [if_pos ha]
    have hfl : ⌊a / (2 * Real.pi)⌋ = -1 := by
      rw [Int.floor_eq_iff]
      constructor
      · rw [Int.cast_neg, Int.cast_one, neg_le, ← neg_div]
        rw [div_le_one (by positivity)]
        linarith
      · push_cast
        rw [show (-1 : ℝ) + 1 = 0 by ring]
        exact div_neg_of_neg_of_pos ha (by positivity)
    rw [hfl]
    push_cast
    ring
  · rw [if_neg ha]
    have hfl : ⌊a / (2 * Real.pi)⌋ = 0 := by
      rw [Int.floor_eq_iff]
      constructor
      · push_cast
        exact div_nonneg (le_of_not_lt ha) (by positivity)
      · push_cast
        rw [zero_add, div_lt_one (by positivity)]
        linarith
    rw [hfl]
    push_cast
    ring

/-- Over a positive horizontal magnitude, the ENU elevation `atan2` form and
the SEZ `arcsin` form agree. -/
theorem atan2_eq_arcsin_div (u h : ℝ) (hh : 0 < h) :
    atan2 u h = Real.arcsin (u / Real.sqrt (h ^ 2 + u ^ 2)) := by
  have hs : 0 < Real.sqrt (h ^ 2 + u ^ 2) := Real.sqrt_pos.mpr (by positivity)
  rw [atan2, if_pos hh, Real.arctan_eq_arcsin]
  congr 1
  have h1 : 1 + (u / h) ^ 2 = (h ^ 2 + u ^ 2) / h ^ 2 := by
    field_simp
  rw [h1, Real.sqrt_div (by positivity), Real.sqrt_sq_eq_abs, abs_of_pos hh]
  field_simp

/-- Counterexample to C4 as stated: for the observer at `(6378,0,0)` with
the target 1 km due west (ECEF `(6378,-1,0)`), at latitude 0 and longitude 0,
`twoecef2aer` returns azimuth 270° while `twoecef2razel` returns azimuth
−90°: the azimuths differ by 360°, not by at most `1e-6` degrees. -/
theorem aer_razel_azimuth_mismatch :
    ¬(|(twoecef2aer ⟨6378, 0, 0⟩ ⟨6378, -1, 0⟩ 0 0).2.1 -
        (twoecef2razel ⟨6378, 0, 0⟩ ⟨0, 0, 0⟩ ⟨6378, -1, 0⟩ ⟨0, 0, 0⟩ 0 0).2.1| ≤
      1e-6) := by
  have henu : twoecef2enu ⟨(6378 : ℝ), 0, 0⟩ ⟨6378, -1, 0⟩ 0 0 = ⟨-1, 0, 0⟩ := by
    simp only [twoecef2enu]
    norm_num [ENU.mk.injEq]
  have haer : (twoecef2aer ⟨6378, 0, 0⟩ ⟨6378, -1, 0⟩ 0 0).2.1 = 270 := by
    simp only [twoecef2aer, henu]
    norm_num
    rw [atan2_neg_zero (show (-1 : ℝ) < 0 by norm_num), pymod]
    have hdiv : -(Real.pi / 2) / (2 * Real.pi) = -(1 / 4 : ℝ) := by
      rw [div_eq_iff (ne_of_gt (by positivity : (0 : ℝ) < 2 * Real.pi))]
      ring
    rw [hdiv]
    have hfl : ⌊(-(1 / 4) : ℝ)⌋ = -1 := by
      rw [Int.floor_eq_iff]
      constructor <;> push_cast <;> norm_num
    rw [hfl, degrees]
    push_cast
    field_simp
    ring
  have hsez : sezOf (Vec3.sub ⟨(6378 : ℝ), -1, 0⟩ ⟨6378, 0, 0⟩) 0 0 =
      ⟨0, -1, 0⟩ := by
    rw [sez_enu]
    simp only [ecef2enu, Vec3.sub]
    norm_num [Vec3.mk.injEq]
  have hraz : (twoecef2razel ⟨6378, 0, 0⟩ ⟨0, 0, 0⟩ ⟨6378, -1, 0⟩ ⟨0, 0, 0⟩
      0 0).2.1 = -90 := by
    simp only [twoecef2razel, hsez]
    norm_num [Real.sqrt_one]
    rw [atan2_neg_zero (show (-1 : ℝ) < 0 by norm_num)]
    field_simp
    ring
  rw [haer, hraz]
  norm_num

/-- Claim C4 amended: away from the razel singularity (horizontal magnitude at
least `1e-8`) and whenever the `1e-3` noise-floor snap of `twoecef2aer` is a
no-op on each ENU component (the component is either at least `1e-3` in
magnitude or exactly 0), the two elevations agree exactly and the two
azimuths agree exactly modulo 360° (`twoecef2aer` wraps into `[0, 360)`,
`twoecef2razel` into `(-180, 180]`). -/
theorem aer_razel_agree (r1ecef v1ecef r2ecef v2ecef : Vec3) (lat lon : ℝ)
    (hns : ¬ Real.sqrt ((twoecef2enu r1ecef r2ecef lat lon).east ^ 2 +
        (twoecef2enu r1ecef r2ecef lat lon).north ^ 2) < 1e-8)
    (hze : 1e-3 ≤ |(twoecef2enu r1ecef r2ecef lat lon).east| ∨
        (twoecef2enu r1ecef r2ecef lat lon).east = 0)
    (hzn : 1e-3 ≤ |(twoecef2enu r1ecef r2ecef lat lon).north| ∨
        (twoecef2enu r1ecef r2ecef lat lon).north = 0)
    (hzu : 1e-3 ≤ |(twoecef2enu r1ecef r2ecef lat lon).up| ∨
        (twoecef2enu r1ecef r2ecef lat lon).up = 0) :
    ((twoecef2aer r1ecef r2ecef lat lon).2.2 =
      (twoecef2razel r1ecef v1ecef r2ecef v2ecef lat lon).2.2) ∧
    ((twoecef2aer r1ecef r2ecef lat lon).2.1 =
        (twoecef2razel r1ecef v1ecef r2ecef v2ecef lat lon).2.1 ∨
      (twoecef2aer r1ecef r2ecef lat lon).2.1 =
        (twoecef2razel r1ecef v1ecef r2ecef v2ecef lat lon).2.1 + 360) := by
  set E := twoecef2enu r1ecef r2ecef lat lon with hE
  have he0 : (if |E.east| < 1e-3 then 0 else E.east) = E.east := by
    rcases hze with h | h
    · exact if_neg (not_lt.mpr h)
    · rw [h]
      simp
  have hn0 : (if |E.north| < 1e-3 then 0 else E.north) = E.north := by
    rcases hzn with h | h
    · exact if_neg (not_lt.mpr h)
    · rw [h]
      simp
  have hu0 : (if |E.up| < 1e-3 then 0 else E.up) = E.up := by
    rcases hzu with h | h
    · exact if_neg (not_lt.mpr h)
    · rw [h]
      simp
  have hsez : sezOf (r2ecef.sub r1ecef) lat lon = ⟨-E.north, E.east, E.up⟩ := by
    rw [sez_enu,
      show ecef2enu (r2ecef.sub r1ecef) lat lon = E from
        (twoecef2enu_eq_ecef2enu r1ecef r2ecef lat lon).symm.trans hE.symm]
  have hh : 0 < Real.sqrt (E.east ^ 2 + E.north ^ 2) :=
    lt_of_lt_of_le (by norm_num) (not_lt.mp hns)
  have hrazel_el : (twoecef2razel r1ecef v1ecef r2ecef v2ecef lat lon).2.2 =
      Real.arcsin (E.up / magnitude ⟨-E.north, E.east, E.up⟩) *
        (180 / Real.pi) := by
    show (if Real.sqrt ((sezOf (r2ecef.sub r1ecef) lat lon).x *
            (sezOf (r2ecef.sub r1ecef) lat lon).x +
          (sezOf (r2ecef.sub r1ecef) lat lon).y *
            (sezOf (r2ecef.sub r1ecef) lat lon).y) < 0.00000001
        then npSign (sezOf (r2ecef.sub r1ecef) lat lon).z * (Real.pi / 2)
        else Real.arcsin ((sezOf (r2ecef.sub r1ecef) lat lon).z /
          magnitude (sezOf (r2ecef.sub r1ecef) lat lon))) * (180 / Real.pi) = _
    rw [hsez]
    dsimp only
    rw [show -E.north * -E.north + E.east * E.east = E.east ^ 2 + E.north ^ 2
        from by ring, if_neg hns]
  have haer_el : (twoecef2aer r1ecef r2ecef lat lon).2.2 =
      degrees (atan2 E.up (Real.sqrt (E.east ^ 2 + E.north ^ 2))) := by
    show degrees (atan2 (if |E.up| < 1e-3 then 0 else E.up)
      (Real.sqrt ((if |E.east| < 1e-3 then 0 else E.east) ^ 2 +
        (if |E.north| < 1e-3 then 0 else E.north) ^ 2))) = _
    rw [he0, hn0, hu0]
  have hrazel_az : (twoecef2razel r1ecef v1ecef r2ecef v2ecef lat lon).2.1 =
      degrees (atan2 E.east E.north) := by
    show (if Real.sqrt ((sezOf (r2ecef.sub r1ecef) lat lon).x *
            (sezOf (r2ecef.sub r1ecef) lat lon).x +
          (sezOf (r2ecef.sub r1ecef) lat lon).y *
            (sezOf (r2ecef.sub r1ecef) lat lon).y) < 0.00000001
        then atan2 (sezOf (v2ecef.sub v1ecef) lat lon).y
          (-(sezOf (v2ecef.sub v1ecef) lat lon).x) * (180 / Real.pi)
        else atan2 (sezOf (r2ecef.sub r1ecef) lat lon).y
          (-(sezOf (r2ecef.sub r1ecef) lat lon).x) * (180 / Real.pi)) = _
    rw [hsez]
    dsimp only
    rw [show -E.north * -E.north + E.east * E.east = E.east ^ 2 + E.north ^ 2
        from by ring, if_neg hns, neg_neg]
    rfl
  have haer_az : (twoecef2aer r1ecef r2ecef lat lon).2.1 =
      degrees (pymod (atan2 E.east E.north) (2 * Real.pi)) := by
    show degrees (pymod (atan2 (if |E.east| < 1e-3 then 0 else E.east)
      (if |E.north| < 1e-3 then 0 else E.north)) (2 * Real.pi)) = _
    rw [he0, hn0]
  constructor
  · rw [haer_el, hrazel_el, atan2_eq_arcsin_div E.up _ hh,
      Real.sq_sqrt (by positivity : (0:ℝ) ≤ E.east ^ 2 + E.north ^ 2),
      show Real.sqrt (E.east ^ 2 + E.north ^ 2 + E.up ^ 2) =
          magnitude ⟨-E.north, E.east, E.up⟩ from by
        rw [magnitude]
        dsimp only
        congr 1
        ring]
    rfl
  · obtain ⟨hlow, hhigh⟩ := atan2_mem_Ioc E.east E.north
    rw [haer_az, hrazel_az, pymod_two_pi hlow hhigh]
    by_cases hneg : atan2 E.east E.north < 0
    · right
      rw [if_pos hneg, degrees, degrees]
      field_simp
      ring
    · left
      rw [if_neg hneg]

/-- Witness for the amended C4 at a concrete non-singular input with all
three ENU components outside the noise floor or exactly zero. -/
theorem aer_razel_agree_witness :
    ((twoecef2aer ⟨6378, 0, 0⟩ ⟨6378, 1, 1⟩ 0 0).2.2 =
      (twoecef2razel ⟨6378, 0, 0⟩ ⟨0, 0, 0⟩ ⟨6378, 1, 1⟩ ⟨0, 0, 0⟩ 0 0).2.2) ∧
    ((twoecef2aer ⟨6378, 0, 0⟩ ⟨6378, 1, 1⟩ 0 0).2.1 =
        (twoecef2razel ⟨6378, 0, 0⟩ ⟨0, 0, 0⟩ ⟨6378, 1, 1⟩ ⟨0, 0, 0⟩ 0 0).2.1 ∨
      (twoecef2aer ⟨6378, 0, 0⟩ ⟨6378, 1, 1⟩ 0 0).2.1 =
        (twoecef2razel ⟨6378, 0, 0⟩ ⟨0, 0, 0⟩ ⟨6378, 1, 1⟩ ⟨0, 0, 0⟩ 0 0).2.1 +
          360) := by
  have henu : twoecef2enu ⟨(6378 : ℝ), 0, 0⟩ ⟨6378, 1, 1⟩ 0 0 = ⟨1, 1, 0⟩ := by
    simp only [twoecef2enu]
    norm_num [ENU.mk.injEq]
  have hsqrt2 : (1 : ℝ) ≤ Real.sqrt 2 := by
    rw [show (1 : ℝ) = Real.sqrt 1 from Real.sqrt_one.symm]
    exact Real.sqrt_le_sqrt (by norm_num)
  refine aer_razel_agree ⟨6378, 0, 0⟩ ⟨0, 0, 0⟩ ⟨6378, 1, 1⟩ ⟨0, 0, 0⟩ 0 0
    ?_ ?_ ?_ ?_
  · rw [henu, not_lt]
    norm_num
    linarith [hsqrt2]
  · rw [henu]
    left
    norm_num
  · rw [henu]
    left
    norm_num
  · rw [henu]
    right
    norm_num

/-- From `relative.py`, `distance`: Euclidean distance between two 3D points. -/
def distance (point1 point2 : Vec3) : ℝ :=
  Real.sqrt ((point2.x - point1.x) ^ 2 + (point2.y - point1.y) ^ 2 +
    (point2.z - point1.z) ^ 2)

/-- The `furthest_satellites` dictionary of `calculate_apparent_length`,
initialized to `{"sat1": None, "sat2": None, "distance": 0,
"midpoint": None, "midpoint_sat": 0}`. -/
structure Furthest where
  sat1 : Option ℕ
  sat2 : Option ℕ
  dist : ℝ
  midpoint : Option Vec3
  midpoint_sat : ℕ

/-- The six-tuple returned by `calculate_apparent_length` on the success
path (the `furthest_satellites` dictionary folded in). -/
structure ApparentLength where
  max_length_degrees_ecef : ℝ
  max_length_degrees_enu : ℝ
  distanceDiff_kms : ℝ
  distance_sat1_to_mid : ℝ
  distance_sat2_to_mid : ℝ
  furthest : Furthest

/-- View an ENU triple as a plain 3-vector (Python returns a bare tuple). -/
def ENU.vec (e : ENU) : Vec3 :=
  ⟨e.east, e.north, e.up⟩

/-- The index pairs `(i, j)`, `i < j`, in the order visited by the nested
loops of `calculate_apparent_length`: ascending `i`, then ascending `j`. -/
def pairIdx (n : ℕ) : List (ℕ × ℕ) :=
  (List.range n).flatMap fun i =>
    ((List.range n).filter fun j => i < j).map fun j => (i, j)

/-- Distance between the satellites at an index pair. -/
def satDist (sats : List Vec3) (p : ℕ × ℕ) : ℝ :=
  distance (sats.getD p.1 ⟨0, 0, 0⟩) (sats.getD p.2 ⟨0, 0, 0⟩)

/-- Midpoint of the satellites at an index pair. -/
def midOf (sats : List Vec3) (p : ℕ × ℕ) : Vec3 :=
  let si := sats.getD p.1 ⟨0, 0, 0⟩
  let sj := sats.getD p.2 ⟨0, 0, 0⟩
  ⟨(si.x + sj.x) / 2, (si.y + sj.y) / 2, (si.z + sj.z) / 2⟩

/-- The `furthest_satellites` update performed for one pair: strictly greater
distance (`dist > furthest_satellites["distance"]`) replaces the record. -/
def furthestStep (sats : List Vec3) (fs : Furthest) (p : ℕ × ℕ) : Furthest :=
  if fs.dist < satDist sats p then
    { sat1 := some p.1, sat2 := some p.2, dist := satDist sats p,
      midpoint := some (midOf sats p), midpoint_sat := fs.midpoint_sat }
  else fs

/-- Running state of the consolidated pair loop: the two maximum angular
lengths and the furthest-pair record. -/
structure ScanState where
  max_ecef : ℝ
  max_enu : ℝ
  furthest : Furthest

/-- One iteration of the consolidated pair loop of
`calculate_apparent_length`: update the furthest pair, then the two maximum
angular separations (each guarded by a nonzero product of magnitudes, with
the cosine clamped to `[-1, 1]` before `acos`). -/
def scanStep (sats : List Vec3) (r_ac_ecef : Vec3) (lat lon : ℝ)
    (st : ScanState) (p : ℕ × ℕ) : ScanState :=
  let si := sats.getD p.1 ⟨0, 0, 0⟩
  let sj := sats.getD p.2 ⟨0, 0, 0⟩
  let vec_a_ecef : Vec3 := ⟨si.x - r_ac_ecef.x, si.y - r_ac_ecef.y,
    si.z - r_ac_ecef.z⟩
  let vec_b_ecef : Vec3 := ⟨sj.x - r_ac_ecef.x, sj.y - r_ac_ecef.y,
    sj.z - r_ac_ecef.z⟩
  let vec_a_enu := (ecef2enu vec_a_ecef lat lon).vec
  let vec_b_enu := (ecef2enu vec_b_ecef lat lon).vec
  let me :=
    if magnitude vec_a_ecef * magnitude vec_b_ecef ≠ 0 then
      max st.max_ecef (Real.arccos (max (min (dot_product vec_a_ecef vec_b_ecef /
        (magnitude vec_a_ecef * magnitude vec_b_ecef)) 1) (-1)) * (180 / Real.pi))
    else st.max_ecef
  let mn :=
    if magnitude vec_a_enu * magnitude vec_b_enu ≠ 0 then
      max st.max_enu (Real.arccos (max (min (dot_product vec_a_enu vec_b_enu /
        (magnitude vec_a_enu * magnitude vec_b_enu)) 1) (-1)) * (180 / Real.pi))
    else st.max_enu
  { max_ecef := me, max_enu := mn, furthest := furthestStep sats st.furthest p }

/-- One iteration of the closest-to-midpoint scan; `none` as the running
minimum plays `float('inf')`. -/
def midScanStep (sats : List Vec3) (m : Vec3) (st : Option ℝ × ℕ) (idx : ℕ) :
    Option ℝ × ℕ :=
  let d := distance (sats.getD idx ⟨0, 0, 0⟩) m
  match st.1 with
  | none => (some d, idx)
  | some c => if d < c then (some d, idx) else st

/-- From `relative.py`, `calculate_apparent_length`.  The Python `TypeError` raised
by the closest-to-midpoint scan when the midpoint is `None` (i.e. when no
pair ever had positive distance) and the target list is nonempty is modelled
as `.error ()`; the `(None, None, None, None, None, None)` no-result return
is `.ok none`. -/
def calculate_apparent_length (satellite_positions : List Vec3)
    (r_ac_ecef : Vec3) (lat lon : ℝ) : Except Unit (Option ApparentLength) :=
  let n := satellite_positions.length
  let st := (pairIdx n).foldl (scanStep satellite_positions r_ac_ecef lat lon)
    ⟨0, 0, ⟨none, none, 0, none, 0⟩⟩
  let finish : Furthest → Except Unit (Option ApparentLength) := fun fs =>
    match fs.sat1, fs.sat2 with
    | some i, some j => .ok (some
        { max_length_degrees_ecef := st.max_ecef
          max_length_degrees_enu := st.max_enu
          distanceDiff_kms :=
            |distance (satellite_positions.getD i ⟨0, 0, 0⟩) r_ac_ecef -
              distance (satellite_positions.getD j ⟨0, 0, 0⟩) r_ac_ecef|
          distance_sat1_to_mid := distance (satellite_positions.getD i ⟨0, 0, 0⟩)
            (satellite_positions.getD fs.midpoint_sat ⟨0, 0, 0⟩)
          distance_sat2_to_mid := distance (satellite_positions.getD j ⟨0, 0, 0⟩)
            (satellite_positions.getD fs.midpoint_sat ⟨0, 0, 0⟩)
          furthest := fs })
    | _, _ => .ok none
  match satellite_positions with
  | [] => finish st.furthest
  | _ :: _ =>
    match st.furthest.midpoint with
    | none => .error ()
    | some m =>
      let mid_idx := ((List.range n).foldl
        (midScanStep satellite_positions m) (none, st.furthest.midpoint_sat)).2
      finish { st.furthest with midpoint_sat := mid_idx }

/-- Claim C3: with an empty target set `calculate_apparent_length` returns the
absent-values result, but with exactly one target the closest-to-midpoint
scan dereferences the absent midpoint and the function raises (`TypeError`
in Python, `.error ()` here) instead of returning the absent-values
result. -/
theorem apparent_length_fewer_than_two (r_ac : Vec3) (lat lon : ℝ) (p : Vec3) :
    calculate_apparent_length [] r_ac lat lon = .ok none ∧
    calculate_apparent_length [p] r_ac lat lon = .error () :=
  ⟨rfl, rfl⟩

/-- The `furthest_satellites` component of the consolidated loop is the fold
of `furthestStep` alone (the angular-maximum updates do not touch it). -/
theorem scan_foldl_furthest (sats : List Vec3) (r_ac : Vec3) (lat lon : ℝ)
    (l : List (ℕ × ℕ)) (st : ScanState) :
    (l.foldl (scanStep sats r_ac lat lon) st).furthest =
      l.foldl (furthestStep sats) st.furthest := by
  induction l generalizing st with
  | nil => rfl
  | cons p l ih =>
    rw [List.foldl_cons, List.foldl_cons]
    exact ih _

/-- If no pair in the list beats the current best distance, the fold leaves
the record unchanged (ties do not replace). -/
theorem furthest_foldl_no_update (sats : List Vec3) (l : List (ℕ × ℕ))
    (fs : Furthest) (h : ∀ q ∈ l, satDist sats q ≤ fs.dist) :
    l.foldl (furthestStep sats) fs = fs := by
  induction l with
  | nil => rfl
  | cons p l ih =>
    rw [List.foldl_cons,
      show furthestStep sats fs p = fs from by
        rw [furthestStep, if_neg (not_lt.mpr (h p (List.mem_cons_self p l)))]]
    exact ih fun q hq => h q (List.mem_cons_of_mem p hq)

/-- First-seen-max characterization of the `furthest_satellites` fold: if
some pair beats the initial distance, the retained pair is the first pair in
iteration order attaining the maximum — every earlier pair is strictly
smaller, every later pair is at most equal. -/
theorem furthest_foldl_first_max (sats : List Vec3) (l : List (ℕ × ℕ))
    (fs : Furthest) (h : ∃ p ∈ l, fs.dist < satDist sats p) :
    ∃ i j l1 l2,
      (l.foldl (furthestStep sats) fs).sat1 = some i ∧
      (l.foldl (furthestStep sats) fs).sat2 = some j ∧
      (l.foldl (furthestStep sats) fs).dist = satDist sats (i, j) ∧
      (l.foldl (furthestStep sats) fs).midpoint = some (midOf sats (i, j)) ∧
      l = l1 ++ (i, j) :: l2 ∧ fs.dist < satDist sats (i, j) ∧
      (∀ q ∈ l1, satDist sats q < satDist sats (i, j)) ∧
      (∀ q ∈ l2, satDist sats q ≤ satDist sats (i, j)) := by
  induction l generalizing fs with
  | nil =>
    obtain ⟨p, hp, _⟩ := h
    exact absurd hp (List.not_mem_nil p)
  | cons p l ih =>
    obtain ⟨pi, pj⟩ := p
    rw [List.foldl_cons]
    by_cases hstep : fs.dist < satDist sats (pi, pj)
    · have hfs : furthestStep sats fs (pi, pj) =
          ⟨some pi, some pj, satDist sats (pi, pj),
            some (midOf sats (pi, pj)), fs.midpoint_sat⟩ := by
        rw [furthestStep, if_pos hstep]
      by_cases hrest : ∃ q ∈ l, satDist sats (pi, pj) < satDist sats q
      · have h' : ∃ q ∈ l,
            (furthestStep sats fs (pi, pj)).dist < satDist sats q := by
          obtain ⟨q, hq, hd⟩ := hrest
          refine ⟨q, hq, ?_⟩
          rw [hfs]
          exact hd
        obtain ⟨i, j, l1, l2, h1, h2, h3, h4, h5, h6, h7, h8⟩ :=
          ih (furthestStep sats fs (pi, pj)) h'
        have hpij : satDist sats (pi, pj) < satDist sats (i, j) := by
          rw [hfs] at h6
          exact h6
        refine ⟨i, j, (pi, pj) :: l1, l2, h1, h2, h3, h4,
          by rw [h5, List.cons_append], lt_trans hstep hpij, ?_, h8⟩
        intro q hq
        rcases List.mem_cons.mp hq with rfl | hq'
        · exact hpij
        · exact h7 q hq'
      · push_neg at hrest
        have hval : l.foldl (furthestStep sats) (furthestStep sats fs (pi, pj)) =
            furthestStep sats fs (pi, pj) := by
          refine furthest_foldl_no_update sats l _ fun q hq => ?_
          rw [hfs]
          exact hrest q hq
        refine ⟨pi, pj, [], l, ?_, ?_, ?_, ?_, rfl, hstep, ?_, hrest⟩
        · rw [hval, hfs]
        · rw [hval, hfs]
        · rw [hval, hfs]
        · rw [hval, hfs]
        · intro q hq
          exact absurd hq (List.not_mem_nil q)
    · have hfs : furthestStep sats fs (pi, pj) = fs := by
        rw [furthestStep, if_neg hstep]
      rw [hfs]
      have h' : ∃ q ∈ l, fs.dist < satDist sats q := by
        obtain ⟨q, hq, hd⟩ := h
        rcases List.mem_cons.mp hq with rfl | hq'
        · exact absurd hd hstep
        · exact ⟨q, hq', hd⟩
      obtain ⟨i, j, l1, l2, h1, h2, h3, h4, h5, h6, h7, h8⟩ := ih fs h'
      refine ⟨i, j, (pi, pj) :: l1, l2, h1, h2, h3, h4,
        by rw [h5, List.cons_append], h6, ?_, h8⟩
      intro q hq
      rcases List.mem_cons.mp hq with rfl | hq'
      · exact lt_of_le_of_lt (not_lt.mp hstep) h6
      · exact h7 q hq'

/-- Counterexample to C9 as stated: with three coincident targets every
unordered pair attains the common maximum pair distance 0, yet no pair is
ever retained (the update requires a strictly greater distance than the
initial 0), and the function then fails in the midpoint scan instead of
returning a furthest pair. -/
theorem apparent_length_zero_max_crash :
    calculate_apparent_length [⟨0, 0, 0⟩, ⟨0, 0, 0⟩, ⟨0, 0, 0⟩] ⟨1, 0, 0⟩ 0 0 =
      .error () := by
  have hget : ∀ i : ℕ,
      ([⟨0, 0, 0⟩, ⟨0, 0, 0⟩, ⟨0, 0, 0⟩] : List Vec3).getD i ⟨0, 0, 0⟩ =
        ⟨0, 0, 0⟩ := by
    intro i
    rcases i with _ | _ | _ | i <;> rfl
  have hdm : ∀ p : ℕ × ℕ,
      satDist [⟨0, 0, 0⟩, ⟨0, 0, 0⟩, ⟨0, 0, 0⟩] p = 0 := by
    intro p
    rw [satDist, hget, hget, distance]
    norm_num
  have hstep : ∀ p : ℕ × ℕ, furthestStep [⟨0, 0, 0⟩, ⟨0, 0, 0⟩, ⟨0, 0, 0⟩]
      (⟨none, none, 0, none, 0⟩ : Furthest) p = ⟨none, none, 0, none, 0⟩ := by
    intro p
    simp only [furthestStep, hdm]
    rw [if_neg (lt_irrefl 0)]
  have hfold : (pairIdx ([⟨0, 0, 0⟩, ⟨0, 0, 0⟩, ⟨0, 0, 0⟩] :
        List Vec3).length).foldl
      (furthestStep [⟨0, 0, 0⟩, ⟨0, 0, 0⟩, ⟨0, 0, 0⟩])
      ⟨none, none, 0, none, 0⟩ = ⟨none, none, 0, none, 0⟩ := by
    rw [show pairIdx ([⟨0, 0, 0⟩, ⟨0, 0, 0⟩, ⟨0, 0, 0⟩] : List Vec3).length =
        [(0, 1), (0, 2), (1, 2)] from rfl]
    rw [List.foldl_cons, hstep, List.foldl_cons, hstep, List.foldl_cons, hstep,
      List.foldl_nil]
  have hmid : (((pairIdx ([⟨0, 0, 0⟩, ⟨0, 0, 0⟩, ⟨0, 0, 0⟩] :
        List Vec3).length).foldl
      (scanStep [⟨0, 0, 0⟩, ⟨0, 0, 0⟩, ⟨0, 0, 0⟩] ⟨1, 0, 0⟩ 0 0)
      ⟨0, 0, ⟨none, none, 0, none, 0⟩⟩).furthest).midpoint = none := by
    rw [scan_foldl_furthest, hfold]
  simp only [calculate_apparent_length]
  rw [hmid]

/-- Claim C9 amended: provided some pair has positive distance, the pair retained
by `calculate_apparent_length` as the furthest pair is the first pair in
iteration order (ascending `i`, then ascending `j > i`) attaining the
maximum pair distance: every earlier pair is strictly smaller and no later
pair with a merely equal distance replaces it.  (When every pair distance is
0 no pair is retained at all and the function fails.) -/
theorem apparent_length_first_max_wins (sats : List Vec3) (r_ac : Vec3)
    (lat lon : ℝ) (hpos : ∃ p ∈ pairIdx sats.length, 0 < satDist sats p) :
    ∃ i j l1 l2 r,
      calculate_apparent_length sats r_ac lat lon = .ok (some r) ∧
      r.furthest.sat1 = some i ∧ r.furthest.sat2 = some j ∧
      r.furthest.dist = satDist sats (i, j) ∧
      pairIdx sats.length = l1 ++ (i, j) :: l2 ∧
      (∀ q ∈ l1, satDist sats q < satDist sats (i, j)) ∧
      (∀ q ∈ l2, satDist sats q ≤ satDist sats (i, j)) := by
  rcases sats with _ | ⟨s0, rest⟩
  · obtain ⟨p, hp, _⟩ := hpos
    simp [pairIdx] at hp
  · obtain ⟨i, j, l1, l2, h1, h2, h3, h4, h5, h6, h7, h8⟩ :=
      furthest_foldl_first_max (s0 :: rest) (pairIdx (s0 :: rest).length)
        ⟨none, none, 0, none, 0⟩
        (by
          obtain ⟨p, hp, hd⟩ := hpos
          exact ⟨p, hp, hd⟩)
    have hproj : ((pairIdx (s0 :: rest).length).foldl
        (scanStep (s0 :: rest) r_ac lat lon)
        ⟨0, 0, ⟨none, none, 0, none, 0⟩⟩).furthest =
        (pairIdx (s0 :: rest).length).foldl (furthestStep (s0 :: rest))
          ⟨none, none, 0, none, 0⟩ :=
      scan_foldl_furthest (s0 :: rest) r_ac lat lon _ _
    have hmid : (((pairIdx (s0 :: rest).length).foldl
        (scanStep (s0 :: rest) r_ac lat lon)
        ⟨0, 0, ⟨none, none, 0, none, 0⟩⟩).furthest).midpoint =
        some (midOf (s0 :: rest) (i, j)) := by
      rw [hproj]
      exact h4
    have hsat1 : (((pairIdx (s0 :: rest).length).foldl
        (scanStep (s0 :: rest) r_ac lat lon)
        ⟨0, 0, ⟨none, none, 0, none, 0⟩⟩).furthest).sat1 = some i := by
      rw [hproj]
      exact h1
    have hsat2 : (((pairIdx (s0 :: rest).length).foldl
        (scanStep (s0 :: rest) r_ac lat lon)
        ⟨0, 0, ⟨none, none, 0, none, 0⟩⟩).furthest).sat2 = some j := by
      rw [hproj]
      exact h2
    have hdist : (((pairIdx (s0 :: rest).length).foldl
        (scanStep (s0 :: rest) r_ac lat lon)
        ⟨0, 0, ⟨none, none, 0, none, 0⟩⟩).furthest).dist =
        satDist (s0 :: rest) (i, j) := by
      rw [hproj]
      exact h3
    refine ⟨i, j, l1, l2, ?_⟩
    simp only [calculate_apparent_length, hmid, hsat1, hsat2]
    exact ⟨_, rfl, rfl, rfl, hdist, h5, h7, h8⟩

/-- Witness for the amended C9: three targets two of which coincide, so
that the pairs `(0,1)` and `(1,2)` tie on the maximum distance 1 and the
pair `(0,1)`, first in iteration order, is the one retained. -/
theorem apparent_length_first_max_wins_witness :
    ∃ i j l1 l2 r,
      calculate_apparent_length [⟨0, 0, 0⟩, ⟨1, 0, 0⟩, ⟨0, 0, 0⟩] ⟨0, 0, 0⟩
          0 0 = .ok (some r) ∧
      r.furthest.sat1 = some i ∧ r.furthest.sat2 = some j ∧
      r.furthest.dist = satDist [⟨0, 0, 0⟩, ⟨1, 0, 0⟩, ⟨0, 0, 0⟩] (i, j) ∧
      pairIdx ([⟨0, 0, 0⟩, ⟨1, 0, 0⟩, ⟨0, 0, 0⟩] : List Vec3).length =
        l1 ++ (i, j) :: l2 ∧
      (∀ q ∈ l1, satDist [⟨0, 0, 0⟩, ⟨1, 0, 0⟩, ⟨0, 0, 0⟩] q <
        satDist [⟨0, 0, 0⟩, ⟨1, 0, 0⟩, ⟨0, 0, 0⟩] (i, j)) ∧
      (∀ q ∈ l2, satDist [⟨0, 0, 0⟩, ⟨1, 0, 0⟩, ⟨0, 0, 0⟩] q ≤
        satDist [⟨0, 0, 0⟩, ⟨1, 0, 0⟩, ⟨0, 0, 0⟩] (i, j)) :=
  apparent_length_first_max_wins [⟨0, 0, 0⟩, ⟨1, 0, 0⟩, ⟨0, 0, 0⟩] ⟨0, 0, 0⟩
    0 0
    ⟨(0, 1),
      by
        rw [show pairIdx ([⟨0, 0, 0⟩, ⟨1, 0, 0⟩, ⟨0, 0, 0⟩] :
            List Vec3).length = [(0, 1), (0, 2), (1, 2)] from rfl]
        exact List.mem_cons_self _ _,
      by
        show (0 : ℝ) < Real.sqrt (((1 : ℝ) - 0) ^ 2 + ((0 : ℝ) - 0) ^ 2 +
          ((0 : ℝ) - 0) ^ 2)
        norm_num⟩

end Starlink
